import Mathlib

/-!
Shallow embedding of `scripts/jsonl_to_sqlite.py`, the JSONL-to-SQLite
dictionary converter, together with theorems checking the specification's
claims against it.

Modelling conventions:
* A decoded JSONL object is a structure whose fields are `Option`-valued
  when the Python code distinguishes a missing key (via `dict.get` defaults
  or `in` tests) from a present one.  List-valued fields whose absence is
  equivalent to the empty list under `dict.get(k, [])` are plain lists.
* The per-line loop of `process_file` is a fold of a step function over a
  list of input lines; a line is either blank, malformed (JSON decode
  failure), or a decoded record.
* Database inserts are modelled by recording every `flush_batches` call:
  the batches flushed automatically at the `BATCH_SIZE` boundary and the
  optional final end-of-file flush.  Row tuples mirror the SQL insert
  tuples (the `translations` table's autoassigned primary key is omitted,
  exactly as the source omits it from its insert).
-/

namespace JsonlToSqlite

/-- One element of a record's `senses` list; `glosses` models
`sense.get("glosses", [])` (missing key ≡ empty list). -/
structure Sense where
  glosses : List String
deriving DecidableEq, Repr

/-- One element of a record's `translations` list.  `lang_code` and `code`
are the two possible language-code field names read at line 116;
`word` is the target text; `roman` the optional romanization. -/
structure Translation where
  lang_code : Option String
  code : Option String
  word : Option String
  roman : Option String
deriving DecidableEq, Repr

/-- A decoded JSONL record, restricted to the keys the converter reads. -/
structure Entry where
  word : Option String
  lang_code : Option String
  pos : Option String
  etymology_text : Option String
  etymology_texts : Option (List String)
  senses : List Sense
  translations : List Translation
deriving DecidableEq, Repr

/-- Lines 23-26: `TARGET_TRANSLATIONS` dict; `none` models a missing key. -/
def TARGET_TRANSLATIONS (lang_code : String) : Option (List String) :=
  if lang_code = "en" then some ["es"]
  else if lang_code = "es" then some ["en"]
  else none

/-- Line 28: `BATCH_SIZE = 10000`. -/
def BATCH_SIZE : Nat := 10000

/-- Lines 86-91: etymology resolution.  `"etymology_text" in entry` keeps the
singular value verbatim; otherwise a present, truthy (non-empty) plural list
contributes its first element; otherwise `None`. -/
def resolveEtymology (entry : Entry) : Option String :=
  match entry.etymology_text with
  | some e => some e
  | none =>
    match entry.etymology_texts with
    | some (e :: _) => some e
    | _ => none

/-- Lines 100-105: for each sense keep the first gloss when the gloss list is
truthy (non-empty).  The source pairs each kept gloss with an always-empty
per-sense translation list that is never read afterwards; the pair's dead
second component is dropped here. -/
def sensesData (entry : Entry) : List String :=
  entry.senses.filterMap fun sense =>
    match sense.glosses with
    | gloss :: _ => some gloss
    | [] => none

/-- Line 116: `trans.get("lang_code") or trans.get("code", "")` — the first
field that is present and non-empty wins, defaulting to the empty string. -/
def transLang (trans : Translation) : String :=
  match trans.lang_code with
  | some s => if s = "" then trans.code.getD "" else s
  | none => trans.code.getD ""

/-- A kept translation, as built at lines 120-124. -/
structure RelevantTranslation where
  target_lang : String
  target_word : String
  roman : Option String
deriving DecidableEq, Repr

/-- Lines 112-124: scan the entry-level translation list; keep a translation
iff its language code is in the allow-list for the current source language
and its target text is truthy (non-empty). -/
def relevantTranslations (entry : Entry) (lang_code : String) : List RelevantTranslation :=
  let target_langs := (TARGET_TRANSLATIONS lang_code).getD []
  entry.translations.filterMap fun trans =>
    if transLang trans ∈ target_langs then
      let trans_word := trans.word.getD ""
      if trans_word = "" then none
      else some { target_lang := transLang trans, target_word := trans_word, roman := trans.roman }
    else none

/-- The tuple returned by `process_entry` (line 126). -/
structure ProcessedEntry where
  word : String
  pos : String
  senses_data : List String
  etymology_text : Option String
  relevant_translations : List RelevantTranslation
deriving DecidableEq, Repr

/-- Lines 72-126: `process_entry`.  Reject when the headword is missing or
empty, or when no sense contributes a gloss; otherwise return the extracted
tuple. -/
def process_entry (entry : Entry) (lang_code : String) : Option ProcessedEntry :=
  let word := entry.word.getD ""
  if word = "" then none
  else
    let pos := entry.pos.getD ""
    let etymology_text := resolveEtymology entry
    let senses_data := sensesData entry
    if senses_data = [] then none
    else
      some { word := word, pos := pos, senses_data := senses_data,
             etymology_text := etymology_text,
             relevant_translations := relevantTranslations entry lang_code }

/-- A row of the `words` table as batched at line 176. -/
structure WordRow where
  id : Nat
  word : String
  lang_code : String
deriving DecidableEq, Repr

/-- A row of the `senses` table as batched at lines 181-187. -/
structure SenseRow where
  id : Nat
  word_id : Nat
  pos : String
  gloss : String
  etymology_text : Option String
deriving DecidableEq, Repr

/-- A row of the `translations` table as batched at lines 192-197 (the
table's autoincremented primary key is not part of the insert tuple). -/
structure TransRow where
  sense_id : Nat
  target_lang : String
  target_word : String
  roman : Option String
deriving DecidableEq, Repr

/-- The three lists handed to one `flush_batches` call (lines 218-247). -/
structure Batch where
  words : List WordRow
  senses : List SenseRow
  trans : List TransRow
deriving DecidableEq, Repr

/-- One input line, as seen by the loop at lines 153-162: blank after
stripping, a JSON decode failure, or a decoded record. -/
inductive InputLine where
  | blank
  | malformed
  | decoded (entry : Entry)
deriving DecidableEq, Repr

/-- The per-file loop state: identifier cursors, processed-entry counter,
the three pending batch lists, the log of automatic flushes performed so
far, and the count of decode warnings printed. -/
structure FileState where
  word_id : Nat
  sense_id : Nat
  entry_count : Nat
  words_batch : List WordRow
  senses_batch : List SenseRow
  trans_batch : List TransRow
  autoFlushes : List Batch
  warnings : Nat
deriving DecidableEq, Repr

/-- Lines 180-188: the inner `for gloss, _ in senses_data` loop, appending
one sense row per gloss with a sense identifier that increments each time;
returns the appended rows and the updated `sense_id` cursor. -/
def addSenses (word_id : Nat) (pos : String) (etymology_text : Option String) :
    List String → Nat → List SenseRow × Nat
  | [], sense_id => ([], sense_id)
  | gloss :: rest, sense_id =>
    let p := addSenses word_id pos etymology_text rest (sense_id + 1)
    ({ id := sense_id, word_id := word_id, pos := pos, gloss := gloss,
       etymology_text := etymology_text } :: p.1, p.2)

/-- Lines 190-197: every translation row is linked to `first_sense_id`. -/
def transRowsFor (first_sense_id : Nat) (ts : List RelevantTranslation) : List TransRow :=
  ts.map fun t =>
    { sense_id := first_sense_id, target_lang := t.target_lang,
      target_word := t.target_word, roman := t.roman }

/-- Lines 153-208: the body of the per-line loop.  Blank lines are skipped;
malformed lines print a warning and are skipped; decoded records are skipped
when their declared language mismatches, or when `process_entry` rejects
them; otherwise rows are appended, the cursors advance, and an automatic
flush fires when `entry_count` reaches a multiple of `BATCH_SIZE`. -/
def stepLine (lang_code : String) (s : FileState) : InputLine → FileState
  | InputLine.blank => s
  | InputLine.malformed => { s with warnings := s.warnings + 1 }
  | InputLine.decoded entry =>
    if entry.lang_code.getD "" ≠ lang_code then s
    else
      match process_entry entry lang_code with
      | none => s
      | some pe =>
        let words_batch := s.words_batch ++
          [{ id := s.word_id, word := pe.word, lang_code := lang_code }]
        let first_sense_id := s.sense_id
        let p := addSenses s.word_id pe.pos pe.etymology_text pe.senses_data s.sense_id
        let senses_batch := s.senses_batch ++ p.1
        let trans_batch := s.trans_batch ++ transRowsFor first_sense_id pe.relevant_translations
        let entry_count := s.entry_count + 1
        if entry_count % BATCH_SIZE = 0 then
          { word_id := s.word_id + 1, sense_id := p.2, entry_count := entry_count,
            words_batch := [], senses_batch := [], trans_batch := [],
            autoFlushes := s.autoFlushes ++
              [{ words := words_batch, senses := senses_batch, trans := trans_batch }],
            warnings := s.warnings }
        else
          { word_id := s.word_id + 1, sense_id := p.2, entry_count := entry_count,
            words_batch := words_batch, senses_batch := senses_batch,
            trans_batch := trans_batch,
            autoFlushes := s.autoFlushes, warnings := s.warnings }

/-- Line 142-148: the loop state at the start of a file. -/
def initState (start_word_id start_sense_id : Nat) : FileState :=
  { word_id := start_word_id, sense_id := start_sense_id, entry_count := 0,
    words_batch := [], senses_batch := [], trans_batch := [],
    autoFlushes := [], warnings := 0 }

/-- The outcome of `process_file` (lines 129-215): the returned cursors and
entry count, the automatic flushes performed inside the loop, the final
end-of-file flush (lines 210-212, performed only when some batch list is
non-empty), and the warning count. -/
structure FileResult where
  next_word_id : Nat
  next_sense_id : Nat
  entry_count : Nat
  autoFlushes : List Batch
  finalFlush : Option Batch
  warnings : Nat
deriving DecidableEq, Repr

/-- Lines 129-215: `process_file` as a fold of `stepLine` over the file's
lines, followed by the guarded final flush. -/
def process_file (lines : List InputLine) (lang_code : String)
    (start_word_id start_sense_id : Nat) : FileResult :=
  let s := lines.foldl (stepLine lang_code) (initState start_word_id start_sense_id)
  { next_word_id := s.word_id, next_sense_id := s.sense_id,
    entry_count := s.entry_count, autoFlushes := s.autoFlushes,
    finalFlush :=
      if s.words_batch ≠ [] ∨ s.senses_batch ≠ [] ∨ s.trans_batch ≠ [] then
        some { words := s.words_batch, senses := s.senses_batch, trans := s.trans_batch }
      else none,
    warnings := s.warnings }

/-- All `words` rows inserted into the database over the whole file: the
automatic flushes in order, then the final flush if it happened. -/
def insertedWords (r : FileResult) : List WordRow :=
  (r.autoFlushes.map Batch.words).flatten ++
    (match r.finalFlush with | some b => b.words | none => [])

/-- All `senses` rows inserted into the database over the whole file. -/
def insertedSenses (r : FileResult) : List SenseRow :=
  (r.autoFlushes.map Batch.senses).flatten ++
    (match r.finalFlush with | some b => b.senses | none => [])

/-- All `translations` rows inserted into the database over the whole file. -/
def insertedTrans (r : FileResult) : List TransRow :=
  (r.autoFlushes.map Batch.trans).flatten ++
    (match r.finalFlush with | some b => b.trans | none => [])

/-- All `words` rows a loop state accounts for: the automatically flushed
ones followed by the still-pending batch. -/
def totalWords (s : FileState) : List WordRow :=
  (s.autoFlushes.map Batch.words).flatten ++ s.words_batch

/-- All `senses` rows a loop state accounts for. -/
def totalSenses (s : FileState) : List SenseRow :=
  (s.autoFlushes.map Batch.senses).flatten ++ s.senses_batch

/-- Invariant of the per-line loop: starting from cursors `w0`, `s0`, the
word identifiers handed out so far are exactly `w0, w0+1, …` up to the
current cursor, in order, and likewise for sense identifiers. -/
def IdInv (w0 s0 : Nat) (s : FileState) : Prop :=
  w0 ≤ s.word_id ∧ s0 ≤ s.sense_id ∧
  (totalWords s).map WordRow.id = List.range' w0 (s.word_id - w0) ∧
  (totalSenses s).map SenseRow.id = List.range' s0 (s.sense_id - s0)

/-- A line qualifies when it decodes, declares the language being processed,
and survives `process_entry`. -/
def qualifies (lang_code : String) : InputLine → Prop
  | InputLine.decoded entry =>
      entry.lang_code.getD "" = lang_code ∧ process_entry entry lang_code ≠ none
  | _ => False

/-- Invariant of the per-line loop over qualifying lines: after `k` accepted
records (starting from word cursor `w0`), the counter is `k`, the word
cursor advanced by `k`, `k / BATCH_SIZE` automatic flushes fired, the
pending word batch holds `k % BATCH_SIZE` rows, and at a batch boundary all
three pending batches are empty. -/
def BatchInv (w0 k : Nat) (s : FileState) : Prop :=
  s.entry_count = k ∧ s.word_id = w0 + k ∧
  s.autoFlushes.length = k / BATCH_SIZE ∧
  s.words_batch.length = k % BATCH_SIZE ∧
  (k % BATCH_SIZE = 0 → s.words_batch = [] ∧ s.senses_batch = [] ∧ s.trans_batch = [])

/-- The spec's end-to-end example record for the headword "cat". -/
def catEntry : Entry :=
  { word := some "cat", lang_code := some "en", pos := some "noun",
    etymology_text := none, etymology_texts := none,
    senses := [{ glosses := ["a small domesticated feline"] }],
    translations := [{ lang_code := some "es", code := none,
                       word := some "gato", roman := none }] }

/-- A record whose only sense has the gloss list `[""]`: the list is truthy,
so the record is accepted, yet its stored gloss is the empty string. -/
def emptyGlossEntry : Entry :=
  { word := some "x", lang_code := some "en", pos := none,
    etymology_text := none, etymology_texts := none,
    senses := [{ glosses := [""] }], translations := [] }

/-- The spec's rejection scenario: a record whose only sense has no gloss. -/
def noGlossEntry : Entry :=
  { word := some "dog", lang_code := some "en", pos := some "noun",
    etymology_text := none, etymology_texts := none,
    senses := [{ glosses := [] }], translations := [] }

/-- A record carrying both etymology fields: the singular one must win. -/
def etyEntry : Entry :=
  { word := some "casa", lang_code := some "es", pos := some "noun",
    etymology_text := some "from Latin casa", etymology_texts := some ["ignored"],
    senses := [{ glosses := ["house"] }], translations := [] }

/-- A record with no part-of-speech field at all. -/
def noPosEntry : Entry :=
  { word := some "run", lang_code := some "en", pos := none,
    etymology_text := none, etymology_texts := none,
    senses := [{ glosses := ["to move fast"] }], translations := [] }

lemma addSenses_snd (w : Nat) (p : String) (e : Option String) :
    ∀ (gs : List String) (sid : Nat), (addSenses w p e gs sid).2 = sid + gs.length := by
  intro gs
  induction gs with
  | nil => intro sid; simp [addSenses]
  | cons g rest ih =>
    intro sid
    simp only [addSenses, ih (sid + 1), List.length_cons]
    omega

lemma addSenses_map_gloss (w : Nat) (p : String) (e : Option String) :
    ∀ (gs : List String) (sid : Nat),
      ((addSenses w p e gs sid).1).map SenseRow.gloss = gs := by
  intro gs
  induction gs with
  | nil => intro sid; simp [addSenses]
  | cons g rest ih => intro sid; simp [addSenses, ih (sid + 1)]

lemma addSenses_length (w : Nat) (p : String) (e : Option String)
    (gs : List String) (sid : Nat) :
    ((addSenses w p e gs sid).1).length = gs.length := by
  rw [← List.length_map (addSenses w p e gs sid).1 SenseRow.gloss,
    addSenses_map_gloss]

lemma addSenses_map_id (w : Nat) (p : String) (e : Option String) :
    ∀ (gs : List String) (sid : Nat),
      ((addSenses w p e gs sid).1).map SenseRow.id = List.range' sid gs.length := by
  intro gs
  induction gs with
  | nil => intro sid; simp [addSenses]
  | cons g rest ih =>
    intro sid
    simp [addSenses, ih (sid + 1), List.range'_succ]

lemma addSenses_mem (w : Nat) (p : String) (e : Option String) :
    ∀ (gs : List String) (sid : Nat) (row : SenseRow),
      row ∈ (addSenses w p e gs sid).1 →
      row.pos = p ∧ row.etymology_text = e ∧ row.gloss ∈ gs := by
  intro gs
  induction gs with
  | nil => intro sid row h; simp [addSenses] at h
  | cons g rest ih =>
    intro sid row h
    simp only [addSenses, List.mem_cons] at h
    rcases h with rfl | h
    · exact ⟨rfl, rfl, List.mem_cons_self _ _⟩
    · obtain ⟨h1, h2, h3⟩ := ih (sid + 1) row h
      exact ⟨h1, h2, List.mem_cons_of_mem _ h3⟩

lemma addSenses_head (w : Nat) (p : String) (e : Option String)
    (g : String) (gs : List String) (sid : Nat) :
    ((addSenses w p e (g :: gs) sid).1).head?.map SenseRow.id = some sid := by
  simp [addSenses]

lemma process_entry_eq_some {entry : Entry} {lang_code : String} {pe : ProcessedEntry}
    (h : process_entry entry lang_code = some pe) :
    entry.word.getD "" ≠ "" ∧ sensesData entry ≠ [] ∧
    pe = { word := entry.word.getD "", pos := entry.pos.getD "",
           senses_data := sensesData entry,
           etymology_text := resolveEtymology entry,
           relevant_translations := relevantTranslations entry lang_code } := by
  simp only [process_entry] at h
  by_cases h1 : entry.word.getD "" = ""
  · simp [h1] at h
  · by_cases h2 : sensesData entry = []
    · simp [h1, h2] at h
    · rw [if_neg h1, if_neg h2] at h
      exact ⟨h1, h2, (Option.some_inj.mp h).symm⟩

lemma sensesData_eq_filterMap (entry : Entry) :
    sensesData entry = entry.senses.filterMap fun s => s.glosses.head? := by
  have hf : (fun (sense : Sense) =>
      match sense.glosses with
      | gloss :: _ => some gloss
      | [] => none) = fun (sense : Sense) => sense.glosses.head? := by
    funext s
    cases s.glosses <;> rfl
  unfold sensesData
  rw [hf]

lemma length_filterMap_firstGloss : ∀ (senses : List Sense),
    (senses.filterMap fun s =>
        match s.glosses with
        | gloss :: _ => some gloss
        | [] => none).length
      = (senses.filter fun s => !s.glosses.isEmpty).length := by
  intro senses
  induction senses with
  | nil => rfl
  | cons s rest ih =>
    cases h : s.glosses <;>
      simp [List.filterMap_cons, List.filter_cons, h, ih]

lemma mem_relevantTranslations {entry : Entry} {lang_code : String}
    {r : RelevantTranslation} :
    r ∈ relevantTranslations entry lang_code ↔
      ∃ trans ∈ entry.translations,
        transLang trans ∈ (TARGET_TRANSLATIONS lang_code).getD [] ∧
        trans.word.getD "" ≠ "" ∧
        r = { target_lang := transLang trans, target_word := trans.word.getD "",
              roman := trans.roman } := by
  simp only [relevantTranslations, List.mem_filterMap]
  constructor
  · rintro ⟨t, ht, hf⟩
    by_cases h1 : transLang t ∈ (TARGET_TRANSLATIONS lang_code).getD []
    · rw [if_pos h1] at hf
      by_cases h2 : t.word.getD "" = ""
      · simp [h2] at hf
      · rw [if_neg h2] at hf
        exact ⟨t, ht, h1, h2, (Option.some_inj.mp hf).symm⟩
    · rw [if_neg h1] at hf
      cases hf
  · rintro ⟨t, ht, h1, h2, rfl⟩
    refine ⟨t, ht, ?_⟩
    rw [if_pos h1, if_neg h2]

/-- C1: the single "cat" input line processed with current language "en"
produces exactly one entry row ("cat", "en"), one definition row with
part-of-speech "noun" and the gloss "a small domesticated feline", and one
cross-reference row ("es", "gato", null romanization); the cross-reference
row's `sense_id` equals the definition row's `id`, so it references that
definition row. -/
theorem C1_cat_end_to_end :
    process_file [InputLine.decoded catEntry] "en" 1 1 =
      { next_word_id := 2, next_sense_id := 2, entry_count := 1,
        autoFlushes := [],
        finalFlush := some
          { words := [{ id := 1, word := "cat", lang_code := "en" }],
            senses := [{ id := 1, word_id := 1, pos := "noun",
                         gloss := "a small domesticated feline",
                         etymology_text := none }],
            trans := [{ sense_id := 1, target_lang := "es", target_word := "gato",
                        roman := none }] },
        warnings := 0 } ∧
    (insertedTrans (process_file [InputLine.decoded catEntry] "en" 1 1)).map
        TransRow.sense_id
      = (insertedSenses (process_file [InputLine.decoded catEntry] "en" 1 1)).map
          SenseRow.id := by
  decide

/-- C2 counterexample: the record `{"word":"x","senses":[{"glosses":[""]}]}`
is accepted (its gloss list is non-empty, which is all the code checks), yet
the definition row it stores carries the empty string as its gloss. -/
theorem C2_counterexample_empty_gloss :
    (process_entry emptyGlossEntry "en").isSome = true ∧
    (insertedSenses (process_file [InputLine.decoded emptyGlossEntry] "en" 1 1)).map
        SenseRow.gloss = [""] := by
  decide

/-- C2 (amended): every definition row stored for an accepted record draws
its gloss from a sense whose gloss list is non-empty — the row's gloss is
that sense's first gloss, which may itself be the empty string. -/
theorem C2_gloss_from_nonempty_gloss_list
    (entry : Entry) (lang_code : String) (pe : ProcessedEntry) (w sid : Nat)
    (h : process_entry entry lang_code = some pe) :
    ∀ row ∈ (addSenses w pe.pos pe.etymology_text pe.senses_data sid).1,
      ∃ sense ∈ entry.senses, sense.glosses.head? = some row.gloss := by
  obtain ⟨-, -, hpe⟩ := process_entry_eq_some h
  intro row hrow
  obtain ⟨-, -, hg⟩ := addSenses_mem w pe.pos pe.etymology_text _ sid row hrow
  rw [hpe] at hg
  simp only [sensesData_eq_filterMap, List.mem_filterMap] at hg
  obtain ⟨sense, hs, hhead⟩ := hg
  exact ⟨sense, hs, hhead⟩

/-- Witness for C2's amended theorem at the "cat" record. -/
theorem C2_gloss_witness :
    process_entry catEntry "en" = some
      { word := "cat", pos := "noun",
        senses_data := ["a small domesticated feline"], etymology_text := none,
        relevant_translations := [{ target_lang := "es", target_word := "gato",
                                    roman := none }] } ∧
    ∃ sense ∈ catEntry.senses,
      sense.glosses.head? = some "a small domesticated feline" := by
  have h : process_entry catEntry "en" = some
      { word := "cat", pos := "noun",
        senses_data := ["a small domesticated feline"], etymology_text := none,
        relevant_translations := [{ target_lang := "es", target_word := "gato",
                                    roman := none }] } := by decide
  exact ⟨h, C2_gloss_from_nonempty_gloss_list catEntry "en" _ 1 1 h
    { id := 1, word_id := 1, pos := "noun", gloss := "a small domesticated feline",
      etymology_text := none } (by decide)⟩

/-- C3: for an accepted record, the definition rows are exactly the first
glosses of the glossed senses, in source order, so their number equals the
number of senses with at least one gloss; and a record none of whose senses
bears a gloss is rejected outright. -/
theorem C3_definition_count (entry : Entry) (lang_code : String) (w sid : Nat) :
    (∀ pe, process_entry entry lang_code = some pe →
      ((addSenses w pe.pos pe.etymology_text pe.senses_data sid).1.map SenseRow.gloss
          = entry.senses.filterMap (fun s => s.glosses.head?) ∧
        (addSenses w pe.pos pe.etymology_text pe.senses_data sid).1.length
          = (entry.senses.filter fun s => !s.glosses.isEmpty).length)) ∧
    ((∀ s ∈ entry.senses, s.glosses = []) → process_entry entry lang_code = none) := by
  constructor
  · intro pe h
    obtain ⟨-, -, hpe⟩ := process_entry_eq_some h
    constructor
    · rw [addSenses_map_gloss, hpe]
      exact sensesData_eq_filterMap entry
    · rw [addSenses_length, hpe]
      exact length_filterMap_firstGloss entry.senses
  · intro hall
    have hs : sensesData entry = [] := by
      unfold sensesData
      rw [List.filterMap_eq_nil_iff]
      intro s hmem
      rw [hall s hmem]
    simp only [process_entry]
    by_cases h1 : entry.word.getD "" = "" <;> simp [h1, hs]

/-- Witness for C3 at the "cat" record (accepted) and at the spec's
no-gloss record (rejected). -/
theorem C3_witness :
    (addSenses 1 "noun" (none : Option String) ["a small domesticated feline"] 1).1.length
        = (catEntry.senses.filter fun s => !s.glosses.isEmpty).length ∧
    process_entry noGlossEntry "en" = none := by
  have h : process_entry catEntry "en" = some
      { word := "cat", pos := "noun",
        senses_data := ["a small domesticated feline"], etymology_text := none,
        relevant_translations := [{ target_lang := "es", target_word := "gato",
                                    roman := none }] } := by decide
  exact ⟨((C3_definition_count catEntry "en" 1 1).1 _ h).2,
    (C3_definition_count noGlossEntry "en" 1 1).2 (by decide)⟩

/-- C4: for an accepted record, a cross-reference candidate yields a kept
translation iff its language code (first non-empty of the two possible
fields) is in the allow-list entry for the current source language and its
target text is non-empty; every translation row is built with
`first_sense_id`, and the first definition row of the entry carries exactly
that identifier, so every produced cross-reference row references the
entry's first definition. -/
theorem C4_translation_filter :
    (∀ (entry : Entry) (lang_code : String) (pe : ProcessedEntry),
      process_entry entry lang_code = some pe →
      ∀ trans ∈ entry.translations,
        (({ target_lang := transLang trans, target_word := trans.word.getD "",
            roman := trans.roman } : RelevantTranslation) ∈ pe.relevant_translations
          ↔ (transLang trans ∈ (TARGET_TRANSLATIONS lang_code).getD [] ∧
             trans.word.getD "" ≠ ""))) ∧
    (∀ (first_sense_id : Nat) (ts : List RelevantTranslation),
      ∀ row ∈ transRowsFor first_sense_id ts, row.sense_id = first_sense_id) ∧
    (∀ (w : Nat) (p : String) (e : Option String) (g : String) (gs : List String)
        (sid : Nat),
      ((addSenses w p e (g :: gs) sid).1).head?.map SenseRow.id = some sid) := by
  refine ⟨?_, ?_, ?_⟩
  · intro entry lang_code pe h trans htrans
    obtain ⟨-, -, hpe⟩ := process_entry_eq_some h
    rw [hpe]
    constructor
    · intro hmem
      rw [mem_relevantTranslations] at hmem
      obtain ⟨t, -, h1, h2, heq⟩ := hmem
      have hlang : transLang trans = transLang t := congrArg RelevantTranslation.target_lang heq
      have hword : trans.word.getD "" = t.word.getD "" := congrArg RelevantTranslation.target_word heq
      rw [hlang, hword]
      exact ⟨h1, h2⟩
    · intro ⟨h1, h2⟩
      rw [mem_relevantTranslations]
      exact ⟨trans, htrans, h1, h2, rfl⟩
  · intro first_sense_id ts row hrow
    simp only [transRowsFor, List.mem_map] at hrow
    obtain ⟨t, -, rfl⟩ := hrow
    rfl
  · intro w p e g gs sid
    exact addSenses_head w p e g gs sid

/-- Witness for C4 at the "cat" record's single translation. -/
theorem C4_witness :
    process_entry catEntry "en" = some
      { word := "cat", pos := "noun",
        senses_data := ["a small domesticated feline"], etymology_text := none,
        relevant_translations := [{ target_lang := "es", target_word := "gato",
                                    roman := none }] } ∧
    (({ target_lang := "es", target_word := "gato",
        roman := none } : RelevantTranslation) ∈
        [({ target_lang := "es", target_word := "gato",
            roman := none } : RelevantTranslation)]
      ↔ (("es" : String) ∈ (TARGET_TRANSLATIONS "en").getD [] ∧ ("gato" : String) ≠ "")) := by
  have h : process_entry catEntry "en" = some
      { word := "cat", pos := "noun",
        senses_data := ["a small domesticated feline"], etymology_text := none,
        relevant_translations := [{ target_lang := "es", target_word := "gato",
                                    roman := none }] } := by decide
  exact ⟨h, C4_translation_filter.1 catEntry "en" _ h
    { lang_code := some "es", code := none, word := some "gato", roman := none }
    (by decide)⟩

/-- C5: for an accepted record, a present singular etymology field is used
verbatim; failing that, a present non-empty plural etymology list
contributes its first element; failing both, the stored etymology is null.
The resolved value is duplicated onto every definition row of the entry. -/
theorem C5_etymology_resolution
    (entry : Entry) (lang_code : String) (pe : ProcessedEntry) (w sid : Nat)
    (h : process_entry entry lang_code = some pe) :
    (∀ e, entry.etymology_text = some e → pe.etymology_text = some e) ∧
    (∀ e rest, entry.etymology_text = none →
      entry.etymology_texts = some (e :: rest) → pe.etymology_text = some e) ∧
    (entry.etymology_text = none →
      (entry.etymology_texts = none ∨ entry.etymology_texts = some []) →
      pe.etymology_text = none) ∧
    (∀ row ∈ (addSenses w pe.pos pe.etymology_text pe.senses_data sid).1,
      row.etymology_text = pe.etymology_text) := by
  obtain ⟨-, -, hpe⟩ := process_entry_eq_some h
  have hety : pe.etymology_text = resolveEtymology entry := by rw [hpe]
  refine ⟨?_, ?_, ?_, ?_⟩
  · intro e he
    rw [hety]
    unfold resolveEtymology
    rw [he]
  · intro e rest he hes
    rw [hety]
    unfold resolveEtymology
    rw [he, hes]
  · intro he hes
    rw [hety]
    unfold resolveEtymology
    rcases hes with h' | h' <;> rw [he, h']
  · intro row hrow
    exact (addSenses_mem w pe.pos pe.etymology_text _ sid row hrow).2.1

/-- Witness for C5 at a record carrying both etymology fields: the singular
field wins verbatim. -/
theorem C5_witness :
    process_entry etyEntry "es" = some
      { word := "casa", pos := "noun", senses_data := ["house"],
        etymology_text := some "from Latin casa", relevant_translations := [] } ∧
    etyEntry.etymology_text = some "from Latin casa" ∧
    ({ word := "casa", pos := "noun", senses_data := ["house"],
       etymology_text := some "from Latin casa",
       relevant_translations := [] } : ProcessedEntry).etymology_text
      = some "from Latin casa" := by
  have h : process_entry etyEntry "es" = some
      { word := "casa", pos := "noun", senses_data := ["house"],
        etymology_text := some "from Latin casa", relevant_translations := [] } := by
    decide
  exact ⟨h, rfl, (C5_etymology_resolution etyEntry "es" _ 1 1 h).1 _ rfl⟩

/-- C10: an accepted record with no part-of-speech field gets the empty
string (never null — the row field is a `String`) as its part-of-speech
value, and all definition rows of one record carry the same record-level
part-of-speech value. -/
theorem C10_pos_default
    (entry : Entry) (lang_code : String) (pe : ProcessedEntry) (w sid : Nat)
    (h : process_entry entry lang_code = some pe) :
    (entry.pos = none → pe.pos = "") ∧
    (∀ row ∈ (addSenses w pe.pos pe.etymology_text pe.senses_data sid).1,
      row.pos = pe.pos) := by
  obtain ⟨-, -, hpe⟩ := process_entry_eq_some h
  constructor
  · intro hp
    rw [hpe]
    simp [hp]
  · intro row hrow
    exact (addSenses_mem w pe.pos pe.etymology_text _ sid row hrow).1

/-- Witness for C10 at a record with no part-of-speech field. -/
theorem C10_witness :
    process_entry noPosEntry "en" = some
      { word := "run", pos := "", senses_data := ["to move fast"],
        etymology_text := none, relevant_translations := [] } ∧
    ({ word := "run", pos := "", senses_data := ["to move fast"],
       etymology_text := none, relevant_translations := [] } : ProcessedEntry).pos
      = "" := by
  have h : process_entry noPosEntry "en" = some
      { word := "run", pos := "", senses_data := ["to move fast"],
        etymology_text := none, relevant_translations := [] } := by decide
  exact ⟨h, (C10_pos_default noPosEntry "en" _ 1 1 h).1 rfl⟩

lemma stepLine_lang_mismatch {lang_code : String} (s : FileState) {entry : Entry}
    (hl : entry.lang_code.getD "" ≠ lang_code) :
    stepLine lang_code s (InputLine.decoded entry) = s := by
  simp only [stepLine]
  rw [if_pos hl]

lemma stepLine_rejected {lang_code : String} (s : FileState) {entry : Entry}
    (hl : entry.lang_code.getD "" = lang_code)
    (hpe : process_entry entry lang_code = none) :
    stepLine lang_code s (InputLine.decoded entry) = s := by
  simp only [stepLine]
  rw [if_neg (by simp [hl]), hpe]

lemma stepLine_decoded_eq (lang_code : String) (s : FileState) (entry : Entry)
    (pe : ProcessedEntry)
    (hl : entry.lang_code.getD "" = lang_code)
    (hpe : process_entry entry lang_code = some pe) :
    stepLine lang_code s (InputLine.decoded entry) =
      if (s.entry_count + 1) % BATCH_SIZE = 0 then
        { word_id := s.word_id + 1,
          sense_id :=
            (addSenses s.word_id pe.pos pe.etymology_text pe.senses_data s.sense_id).2,
          entry_count := s.entry_count + 1,
          words_batch := [], senses_batch := [], trans_batch := [],
          autoFlushes := s.autoFlushes ++
            [{ words := s.words_batch ++
                  [{ id := s.word_id, word := pe.word, lang_code := lang_code }],
               senses := s.senses_batch ++
                  (addSenses s.word_id pe.pos pe.etymology_text pe.senses_data s.sense_id).1,
               trans := s.trans_batch ++ transRowsFor s.sense_id pe.relevant_translations }],
          warnings := s.warnings }
      else
        { word_id := s.word_id + 1,
          sense_id :=
            (addSenses s.word_id pe.pos pe.etymology_text pe.senses_data s.sense_id).2,
          entry_count := s.entry_count + 1,
          words_batch := s.words_batch ++
            [{ id := s.word_id, word := pe.word, lang_code := lang_code }],
          senses_batch := s.senses_batch ++
            (addSenses s.word_id pe.pos pe.etymology_text pe.senses_data s.sense_id).1,
          trans_batch := s.trans_batch ++ transRowsFor s.sense_id pe.relevant_translations,
          autoFlushes := s.autoFlushes, warnings := s.warnings } := by
  simp only [stepLine]
  rw [if_neg (by simp [hl]), hpe]

lemma totalWords_stepLine {lang_code : String} (s : FileState) {entry : Entry}
    {pe : ProcessedEntry}
    (hl : entry.lang_code.getD "" = lang_code)
    (hpe : process_entry entry lang_code = some pe) :
    totalWords (stepLine lang_code s (InputLine.decoded entry)) =
      totalWords s ++ [{ id := s.word_id, word := pe.word, lang_code := lang_code }] := by
  rw [stepLine_decoded_eq lang_code s entry pe hl hpe]
  split <;> simp [totalWords, List.flatten_append]

lemma totalSenses_stepLine {lang_code : String} (s : FileState) {entry : Entry}
    {pe : ProcessedEntry}
    (hl : entry.lang_code.getD "" = lang_code)
    (hpe : process_entry entry lang_code = some pe) :
    totalSenses (stepLine lang_code s (InputLine.decoded entry)) =
      totalSenses s ++
        (addSenses s.word_id pe.pos pe.etymology_text pe.senses_data s.sense_id).1 := by
  rw [stepLine_decoded_eq lang_code s entry pe hl hpe]
  split <;> simp [totalSenses, List.flatten_append]

lemma stepLine_accepted_word_id {lang_code : String} (s : FileState) {entry : Entry}
    {pe : ProcessedEntry}
    (hl : entry.lang_code.getD "" = lang_code)
    (hpe : process_entry entry lang_code = some pe) :
    (stepLine lang_code s (InputLine.decoded entry)).word_id = s.word_id + 1 := by
  rw [stepLine_decoded_eq lang_code s entry pe hl hpe]
  split <;> rfl

lemma stepLine_accepted_sense_id {lang_code : String} (s : FileState) {entry : Entry}
    {pe : ProcessedEntry}
    (hl : entry.lang_code.getD "" = lang_code)
    (hpe : process_entry entry lang_code = some pe) :
    (stepLine lang_code s (InputLine.decoded entry)).sense_id =
      s.sense_id + pe.senses_data.length := by
  rw [stepLine_decoded_eq lang_code s entry pe hl hpe]
  split <;> exact addSenses_snd s.word_id pe.pos pe.etymology_text pe.senses_data s.sense_id

lemma IdInv_init (w0 s0 : Nat) : IdInv w0 s0 (initState w0 s0) := by
  refine ⟨Nat.le_refl _, Nat.le_refl _, ?_, ?_⟩ <;>
    simp [initState, totalWords, totalSenses]

lemma IdInv_step (lang_code : String) (w0 s0 : Nat) (s : FileState) (l : InputLine)
    (h : IdInv w0 s0 s) : IdInv w0 s0 (stepLine lang_code s l) := by
  obtain ⟨h1, h2, h3, h4⟩ := h
  cases l with
  | blank => exact ⟨h1, h2, h3, h4⟩
  | malformed => exact ⟨h1, h2, h3, h4⟩
  | decoded entry =>
    by_cases hl : entry.lang_code.getD "" = lang_code
    · cases hpe : process_entry entry lang_code with
      | none =>
        rw [stepLine_rejected s hl hpe]
        exact ⟨h1, h2, h3, h4⟩
      | some pe =>
        obtain ⟨m, hm⟩ : ∃ m, s.word_id = w0 + m := ⟨s.word_id - w0, by omega⟩
        obtain ⟨k, hk⟩ : ∃ k, s.sense_id = s0 + k := ⟨s.sense_id - s0, by omega⟩
        rw [hm] at h3
        rw [hk] at h4
        simp only [Nat.add_sub_cancel_left] at h3 h4
        refine ⟨?_, ?_, ?_, ?_⟩
        · rw [stepLine_accepted_word_id s hl hpe]; omega
        · rw [stepLine_accepted_sense_id s hl hpe]; omega
        · rw [totalWords_stepLine s hl hpe, stepLine_accepted_word_id s hl hpe,
            List.map_append, h3, hm]
          have he : w0 + m + 1 - w0 = m + 1 := by omega
          rw [he]
          exact (List.range'_1_concat w0 m).symm
        · rw [totalSenses_stepLine s hl hpe, stepLine_accepted_sense_id s hl hpe,
            List.map_append, h4, addSenses_map_id, hk]
          have he : s0 + k + pe.senses_data.length - s0 = pe.senses_data.length + k := by
            omega
          rw [he]
          exact List.range'_append_1 s0 k pe.senses_data.length
    · rw [stepLine_lang_mismatch s hl]
      exact ⟨h1, h2, h3, h4⟩

lemma IdInv_foldl (lang_code : String) (w0 s0 : Nat) :
    ∀ (lines : List InputLine) (s : FileState),
      IdInv w0 s0 s → IdInv w0 s0 (lines.foldl (stepLine lang_code) s) := by
  intro lines
  induction lines with
  | nil => intro s h; exact h
  | cons l rest ih =>
    intro s h
    exact ih _ (IdInv_step lang_code w0 s0 s l h)

lemma BatchInv_init (w0 s0 : Nat) : BatchInv w0 0 (initState w0 s0) := by
  refine ⟨rfl, by simp [initState], ?_, ?_, fun _ => ⟨rfl, rfl, rfl⟩⟩ <;>
    simp [initState]

lemma BatchInv_step (lang_code : String) (w0 k : Nat) (s : FileState) (l : InputLine)
    (hq : qualifies lang_code l) (h : BatchInv w0 k s) :
    BatchInv w0 (k + 1) (stepLine lang_code s l) := by
  cases l with
  | blank => exact absurd hq (by simp [qualifies])
  | malformed => exact absurd hq (by simp [qualifies])
  | decoded entry =>
    obtain ⟨hl, hne⟩ := hq
    obtain ⟨pe, hpe⟩ := Option.ne_none_iff_exists'.mp hne
    obtain ⟨hc, hw, hf, hlen, -⟩ := h
    rw [stepLine_decoded_eq lang_code s entry pe hl hpe, hc]
    have hf' : s.autoFlushes.length = k / 10000 := by
      simpa [BATCH_SIZE] using hf
    have hlen' : s.words_batch.length = k % 10000 := by
      simpa [BATCH_SIZE] using hlen
    by_cases hb : (k + 1) % BATCH_SIZE = 0
    · rw [if_pos hb]
      have hb' : (k + 1) % 10000 = 0 := by simpa [BATCH_SIZE] using hb
      refine ⟨rfl, by dsimp only; omega, ?_, ?_, fun _ => ⟨rfl, rfl, rfl⟩⟩
      · simp only [List.length_append, List.length_cons, List.length_nil, BATCH_SIZE]
        omega
      · simpa using hb.symm
    · rw [if_neg hb]
      have hb' : (k + 1) % 10000 ≠ 0 := by simpa [BATCH_SIZE] using hb
      refine ⟨rfl, by dsimp only; omega, ?_, ?_, fun h0 => absurd h0 hb⟩
      · simp only [BATCH_SIZE]
        omega
      · simp only [List.length_append, List.length_cons, List.length_nil, BATCH_SIZE]
        omega

lemma BatchInv_foldl (lang_code : String) (w0 : Nat) :
    ∀ (lines : List InputLine) (k : Nat) (s : FileState),
      (∀ l ∈ lines, qualifies lang_code l) → BatchInv w0 k s →
      BatchInv w0 (k + lines.length) (lines.foldl (stepLine lang_code) s) := by
  intro lines
  induction lines with
  | nil => intro k s _ h; simpa using h
  | cons l rest ih =>
    intro k s hq h
    rw [List.foldl_cons, List.length_cons]
    have h1 := BatchInv_step lang_code w0 k s l (hq l (List.mem_cons_self l rest)) h
    have h2 := ih (k + 1) _ (fun x hx => hq x (List.mem_cons_of_mem l hx)) h1
    have hh : k + (rest.length + 1) = k + 1 + rest.length := by omega
    rw [hh]
    exact h2

lemma insertedWords_eq (lines : List InputLine) (lang_code : String) (w0 s0 : Nat) :
    insertedWords (process_file lines lang_code w0 s0)
      = totalWords (lines.foldl (stepLine lang_code) (initState w0 s0)) := by
  unfold process_file insertedWords totalWords
  dsimp only
  by_cases hcond :
      (lines.foldl (stepLine lang_code) (initState w0 s0)).words_batch ≠ [] ∨
      (lines.foldl (stepLine lang_code) (initState w0 s0)).senses_batch ≠ [] ∨
      (lines.foldl (stepLine lang_code) (initState w0 s0)).trans_batch ≠ []
  · rw [if_pos hcond]
  · rw [if_neg hcond]
    push_neg at hcond
    rw [hcond.1]

lemma insertedSenses_eq (lines : List InputLine) (lang_code : String) (w0 s0 : Nat) :
    insertedSenses (process_file lines lang_code w0 s0)
      = totalSenses (lines.foldl (stepLine lang_code) (initState w0 s0)) := by
  unfold process_file insertedSenses totalSenses
  dsimp only
  by_cases hcond :
      (lines.foldl (stepLine lang_code) (initState w0 s0)).words_batch ≠ [] ∨
      (lines.foldl (stepLine lang_code) (initState w0 s0)).senses_batch ≠ [] ∨
      (lines.foldl (stepLine lang_code) (initState w0 s0)).trans_batch ≠ []
  · rw [if_pos hcond]
  · rw [if_neg hcond]
    push_neg at hcond
    rw [hcond.2.1]

lemma process_file_word_ids (lines : List InputLine) (lang_code : String) (w0 s0 : Nat) :
    w0 ≤ (process_file lines lang_code w0 s0).next_word_id ∧
    (insertedWords (process_file lines lang_code w0 s0)).map WordRow.id
      = List.range' w0 ((process_file lines lang_code w0 s0).next_word_id - w0) := by
  obtain ⟨h1, -, h3, -⟩ :=
    IdInv_foldl lang_code w0 s0 lines (initState w0 s0) (IdInv_init w0 s0)
  exact ⟨h1, by rw [insertedWords_eq]; exact h3⟩

lemma process_file_sense_ids (lines : List InputLine) (lang_code : String) (w0 s0 : Nat) :
    s0 ≤ (process_file lines lang_code w0 s0).next_sense_id ∧
    (insertedSenses (process_file lines lang_code w0 s0)).map SenseRow.id
      = List.range' s0 ((process_file lines lang_code w0 s0).next_sense_id - s0) := by
  obtain ⟨-, h2, -, h4⟩ :=
    IdInv_foldl lang_code w0 s0 lines (initState w0 s0) (IdInv_init w0 s0)
  exact ⟨h2, by rw [insertedSenses_eq]; exact h4⟩

/-- C6: when a second file is processed with the identifier cursors returned
by the first file, every entry identifier and every definition identifier
inserted while processing the second file is strictly greater than every
one inserted while processing the first file. -/
theorem C6_identifier_monotonicity
    (lines1 lines2 : List InputLine) (lang1 lang2 : String) (w0 s0 : Nat) :
    (∀ i ∈ (insertedWords (process_file lines1 lang1 w0 s0)).map WordRow.id,
     ∀ j ∈ (insertedWords (process_file lines2 lang2
          (process_file lines1 lang1 w0 s0).next_word_id
          (process_file lines1 lang1 w0 s0).next_sense_id)).map WordRow.id,
      i < j) ∧
    (∀ i ∈ (insertedSenses (process_file lines1 lang1 w0 s0)).map SenseRow.id,
     ∀ j ∈ (insertedSenses (process_file lines2 lang2
          (process_file lines1 lang1 w0 s0).next_word_id
          (process_file lines1 lang1 w0 s0).next_sense_id)).map SenseRow.id,
      i < j) := by
  obtain ⟨hw1, hmapw1⟩ := process_file_word_ids lines1 lang1 w0 s0
  obtain ⟨hs1, hmaps1⟩ := process_file_sense_ids lines1 lang1 w0 s0
  obtain ⟨hw2, hmapw2⟩ := process_file_word_ids lines2 lang2
    (process_file lines1 lang1 w0 s0).next_word_id
    (process_file lines1 lang1 w0 s0).next_sense_id
  obtain ⟨hs2, hmaps2⟩ := process_file_sense_ids lines2 lang2
    (process_file lines1 lang1 w0 s0).next_word_id
    (process_file lines1 lang1 w0 s0).next_sense_id
  constructor
  · intro i hi j hj
    rw [hmapw1, List.mem_range'_1] at hi
    rw [hmapw2, List.mem_range'_1] at hj
    omega
  · intro i hi j hj
    rw [hmaps1, List.mem_range'_1] at hi
    rw [hmaps2, List.mem_range'_1] at hj
    omega

/-- Witness for C6: two one-line files with the "cat" record; the first run
inserts word id 1 and sense id 1, the second (starting at the returned
cursors) inserts word id 2 and sense id 2. -/
theorem C6_witness :
    (1 : Nat) ∈ (insertedWords
        (process_file [InputLine.decoded catEntry] "en" 1 1)).map WordRow.id ∧
    (2 : Nat) ∈ (insertedWords (process_file [InputLine.decoded catEntry] "en"
        (process_file [InputLine.decoded catEntry] "en" 1 1).next_word_id
        (process_file [InputLine.decoded catEntry] "en" 1 1).next_sense_id)).map
          WordRow.id ∧
    (1 : Nat) < 2 := by
  refine ⟨by decide, by decide, ?_⟩
  exact (C6_identifier_monotonicity [InputLine.decoded catEntry]
    [InputLine.decoded catEntry] "en" "en" 1 1).1 1 (by decide) 2 (by decide)

/-- C7: a file of exactly `BATCH_SIZE` qualifying records triggers exactly
one automatic flush; at end-of-file all pending batches are already empty,
so the final flush step inserts nothing (the code skips the call, which is
the no-op the boundary case calls for); and no accumulated row is inserted
more than once — all `BATCH_SIZE` word rows are inserted exactly once and
the inserted word and sense rows are duplicate-free. -/
theorem C7_single_batch_flush (lines : List InputLine) (lang_code : String)
    (w0 s0 : Nat)
    (hlen : lines.length = BATCH_SIZE)
    (hq : ∀ l ∈ lines, qualifies lang_code l) :
    (process_file lines lang_code w0 s0).autoFlushes.length = 1 ∧
    (process_file lines lang_code w0 s0).finalFlush = none ∧
    (insertedWords (process_file lines lang_code w0 s0)).length = BATCH_SIZE ∧
    (insertedWords (process_file lines lang_code w0 s0)).Nodup ∧
    (insertedSenses (process_file lines lang_code w0 s0)).Nodup := by
  have hb := BatchInv_foldl lang_code w0 lines 0 (initState w0 s0) hq
    (BatchInv_init w0 s0)
  rw [hlen] at hb
  obtain ⟨-, hw, hf, -, hempty⟩ := hb
  simp only [Nat.zero_add] at hw hf hempty
  obtain ⟨hwb, hsb, htb⟩ := hempty (Nat.mod_self BATCH_SIZE)
  obtain ⟨hw1, hmapw⟩ := process_file_word_ids lines lang_code w0 s0
  obtain ⟨hs1, hmaps⟩ := process_file_sense_ids lines lang_code w0 s0
  have hnext : (process_file lines lang_code w0 s0).next_word_id = w0 + BATCH_SIZE := hw
  refine ⟨?_, ?_, ?_, ?_, ?_⟩
  · show (lines.foldl (stepLine lang_code) (initState w0 s0)).autoFlushes.length = 1
    rw [hf]
    decide
  · show (if _ ∨ _ ∨ _ then some _ else none) = none
    rw [if_neg]
    simp [hwb, hsb, htb]
  · have := congrArg List.length hmapw
    simp only [List.length_map, List.length_range'] at this
    rw [this, hnext]
    omega
  · exact List.Nodup.of_map WordRow.id
      (hmapw ▸ List.nodup_range' w0 _)
  · exact List.Nodup.of_map SenseRow.id
      (hmaps ▸ List.nodup_range' s0 _)

/-- Witness for C7: a file of exactly `BATCH_SIZE` copies of the "cat"
line. -/
theorem C7_witness :
    (List.replicate BATCH_SIZE (InputLine.decoded catEntry)).length = BATCH_SIZE ∧
    (∀ l ∈ List.replicate BATCH_SIZE (InputLine.decoded catEntry),
      qualifies "en" l) ∧
    ((process_file (List.replicate BATCH_SIZE (InputLine.decoded catEntry))
        "en" 1 1).autoFlushes.length = 1 ∧
     (process_file (List.replicate BATCH_SIZE (InputLine.decoded catEntry))
        "en" 1 1).finalFlush = none) := by
  have h1 : (List.replicate BATCH_SIZE (InputLine.decoded catEntry)).length
      = BATCH_SIZE := List.length_replicate BATCH_SIZE _
  have h2 : ∀ l ∈ List.replicate BATCH_SIZE (InputLine.decoded catEntry),
      qualifies "en" l := by
    intro l hl
    rw [List.eq_of_mem_replicate hl]
    exact ⟨rfl, by decide⟩
  have h3 := C7_single_batch_flush
    (List.replicate BATCH_SIZE (InputLine.decoded catEntry)) "en" 1 1 h1 h2
  exact ⟨h1, h2, h3.1, h3.2.1⟩

/-- C8: a decoded record whose declared language code differs from the
language being processed leaves the loop state completely unchanged (the
extractor is never consulted), and a file consisting of such a line behaves
exactly like an empty file. -/
theorem C8_cross_language_inert :
    (∀ (lang_code : String) (s : FileState) (entry : Entry),
        entry.lang_code.getD "" ≠ lang_code →
        stepLine lang_code s (InputLine.decoded entry) = s) ∧
    (∀ (lang_code : String) (w0 s0 : Nat) (entry : Entry),
        entry.lang_code.getD "" ≠ lang_code →
        process_file [InputLine.decoded entry] lang_code w0 s0
          = process_file [] lang_code w0 s0) := by
  refine ⟨fun lang_code s entry hl => stepLine_lang_mismatch s hl, ?_⟩
  intro lang_code w0 s0 entry hl
  simp only [process_file, List.foldl_cons, List.foldl_nil]
  rw [stepLine_lang_mismatch (initState w0 s0) hl]

/-- Witness for C8: the "cat" line (declared language "en") processed while
the driver is configured for "es" is inert and yields zero rows. -/
theorem C8_witness :
    catEntry.lang_code.getD "" ≠ "es" ∧
    stepLine "es" (initState 1 1) (InputLine.decoded catEntry) = initState 1 1 ∧
    process_file [InputLine.decoded catEntry] "es" 1 1
      = process_file [] "es" 1 1 := by
  have h : catEntry.lang_code.getD "" ≠ "es" := by decide
  exact ⟨h, C8_cross_language_inert.1 "es" (initState 1 1) catEntry h,
    C8_cross_language_inert.2 "es" 1 1 catEntry h⟩

/-- C9: a line that fails to decode only increments the warning count — the
identifier cursors, the counter, the pending batches and the flush log are
untouched, so the malformed line contributes no rows and never aborts the
run; consequently a file holding only a malformed line returns the cursors
unchanged, one warning, and no inserts. -/
theorem C9_malformed_line_skipped :
    (∀ (lang_code : String) (s : FileState),
        stepLine lang_code s InputLine.malformed
          = { s with warnings := s.warnings + 1 }) ∧
    (∀ (lang_code : String) (w0 s0 : Nat),
        process_file [InputLine.malformed] lang_code w0 s0
          = { next_word_id := w0, next_sense_id := s0, entry_count := 0,
              autoFlushes := [], finalFlush := none, warnings := 1 }) := by
  exact ⟨fun lang_code s => rfl, fun lang_code w0 s0 => rfl⟩

end JsonlToSqlite
